import Mathlib

/-!
Verification development for the crewai_poagent procurement tools.

The definitions below are shallow embeddings of the Python sources:
  * src/tools/purchase_queue_tool.py        (purchase request queue)
  * src/PO_Crew/tools/document_parser_tool.py  (extraction fallback, OCR flattening)
  * src/PO_Crew/tools/po_record_tool.py     (order record store)
  * src/PO_Crew/tools/document_generator_tool.py  (document generation validation)

Conventions:
  * Clock readings are `Nat` microsecond counts. `datetime.now().isoformat()`
    is an injective function of such a count, so records store the count
    itself; `strftime("%Y%m%d_%H%M%S")` truncates to seconds and renders them
    injectively, so it is modelled by the decimal rendering of `now / 1000000`.
  * File and database writes are modelled by explicit state passing; the
    persisted JSON document becomes a Lean structure.
  * Python exceptions become `Except` / `Option` values; injected per-item
    faults model storage or preparation exceptions.
-/

namespace PoAgent

/-! ## Purchase request queue (src/tools/purchase_queue_tool.py) -/

/-- A `validation_data` payload: a Python dict, modelled as key/value pairs.
The queue passes it through without interpreting it. -/
abbrev VData := List (String × String)

/-- One queue record, as built by `_add_to_queue` and mutated by
`_mark_completed`. -/
structure QRequest where
  request_id : String
  timestamp : Nat
  status : String
  validation_data : VData
  created_by : String
  completed_at : Option Nat
  processed_by : Option String
deriving DecidableEq, Repr

/-- The persisted queue file: two sub-collections plus metadata timestamps. -/
structure QueueData where
  pending_requests : List QRequest
  completed_requests : List QRequest
  created_at : Nat
  last_updated : Nat
deriving DecidableEq, Repr

/-- Model of `_initialize_queue`: the empty queue file. -/
def init_queue (now : Nat) : QueueData :=
  { pending_requests := [], completed_requests := [],
    created_at := now, last_updated := now }

/-- Model of `_save_queue`: refreshes `metadata.last_updated` and persists. -/
def save_queue (now : Nat) (q : QueueData) : QueueData :=
  { q with last_updated := now }

/-- Model of `_generate_request_id`:
`"PQ_" + datetime.now().strftime("%Y%m%d_%H%M%S")`. The strftime output is an
injective rendering of the clock truncated to whole seconds, modelled by the
decimal rendering of `now / 1000000`. -/
def generate_request_id (now : Nat) : String :=
  "PQ_" ++ Nat.repr (now / 1000000)

/-- Semantic content of the strings the queue tool returns to its caller. -/
inductive QueueResult where
  | added (request_id : String) (total_pending : Nat)
  | completedOk (request_id : String) (remaining_pending : Nat)
  | notFound (request_id : String)
  | errorMsg (msg : String)
deriving DecidableEq, Repr

/-- Python truthiness test `if not request_data` on an `Optional[Dict]`:
true for `None` and for the empty dict. -/
def isFalsyData : Option VData → Bool
  | none => true
  | some d => d.isEmpty

/-- Model of `_add_to_queue`: load, generate an id, append a pending record,
save, and report the new pending count. -/
def add_to_queue (request_data : Option VData) (now : Nat) (q : QueueData) :
    QueueData × QueueResult :=
  if isFalsyData request_data then (q, .errorMsg "No request data provided")
  else
    let rid := generate_request_id now
    let item : QRequest :=
      { request_id := rid, timestamp := now, status := "pending",
        validation_data := request_data.getD [],
        created_by := "purchase_validation_agent",
        completed_at := none, processed_by := none }
    let q1 := { q with pending_requests := q.pending_requests ++ [item] }
    (save_queue now q1, .added rid q1.pending_requests.length)

/-- The search loop of `_mark_completed`: find the first pending record with
the given id, stamp it completed, and return it with the remaining pending
list (the list after `pending_requests.pop(i)`). -/
def markFirst (rid : String) (now : Nat) : List QRequest → Option (QRequest × List QRequest)
  | [] => none
  | r :: rs =>
    if r.request_id = rid then
      some ({ r with status := "completed"
                     completed_at := some now
                     processed_by := some "purchase_order_agent" }, rs)
    else
      match markFirst rid now rs with
      | some (u, rest) => some (u, r :: rest)
      | none => none

/-- Model of `_mark_completed`: move the first matching pending record to the
completed list and save; report not-found (without saving) otherwise. -/
def mark_completed (request_id : Option String) (now : Nat) (q : QueueData) :
    QueueData × QueueResult :=
  match request_id with
  | none => (q, .errorMsg "No request ID provided")
  | some rid =>
    if rid = "" then (q, .errorMsg "No request ID provided")
    else
      match markFirst rid now q.pending_requests with
      | some (u, rest) =>
        let q1 := { q with pending_requests := rest
                           completed_requests := q.completed_requests ++ [u] }
        (save_queue now q1, .completedOk rid rest.length)
      | none => (q, .notFound rid)

/-- Model of `_get_queue_status`: pending count, completed count, last update. -/
def get_queue_status (q : QueueData) : Nat × Nat × Nat :=
  (q.pending_requests.length, q.completed_requests.length, q.last_updated)

/-- One external invocation of a mutating queue action, with the clock reading
at which it runs. -/
inductive QOp where
  | enqueue (data : Option VData) (now : Nat)
  | complete (rid : Option String) (now : Nat)
deriving DecidableEq, Repr

/-- State left by one queue operation. -/
def applyOp (q : QueueData) : QOp → QueueData
  | .enqueue d t => (add_to_queue d t q).1
  | .complete r t => (mark_completed r t q).1

/-- State left by a sequence of queue operations. -/
def runOps (q : QueueData) : List QOp → QueueData
  | [] => q
  | op :: ops => runOps (applyOp q op) ops

/-- The request ids created by the successful enqueues of a trace. -/
def createdIds : List QOp → List String
  | [] => []
  | .enqueue d t :: ops =>
    if isFalsyData d then createdIds ops else generate_request_id t :: createdIds ops
  | .complete _ _ :: ops => createdIds ops

/-- The whole-second clock values of the successful enqueues of a trace. -/
def createdSeconds : List QOp → List Nat
  | [] => []
  | .enqueue d t :: ops =>
    if isFalsyData d then createdSeconds ops else t / 1000000 :: createdSeconds ops
  | .complete _ _ :: ops => createdSeconds ops

/-- The whole-second clock values of all enqueue calls of a trace. -/
def enqueueSeconds : List QOp → List Nat
  | [] => []
  | .enqueue _ t :: ops => t / 1000000 :: enqueueSeconds ops
  | .complete _ _ :: ops => enqueueSeconds ops

/-- The request ids of the pending sub-collection, in stored order. -/
def pendingIds (q : QueueData) : List String :=
  q.pending_requests.map (·.request_id)

/-- The request ids of the completed sub-collection, in stored order. -/
def completedIds (q : QueueData) : List String :=
  q.completed_requests.map (·.request_id)

/-- All request ids stored anywhere in the queue file. -/
def allIds (q : QueueData) : List String := pendingIds q ++ completedIds q

/-- Decimal decoder inverting `Nat.toDigits 10`, used to prove that the
decimal rendering inside `generate_request_id` is injective. -/
def decDigits (l : List Char) : Nat :=
  l.foldl (fun a c => 10 * a + (c.toNat - 48)) 0

/-! ## Document extraction fallback (src/PO_Crew/tools/document_parser_tool.py)

The fallback order-id recovery runs
`re.search(r'(?:PO|P\.O\.|Purchase Order)[\s#:\-]*([A-Z0-9\-]+)', raw_text, re.IGNORECASE)`.
It is embedded below as a deterministic engine: scan start positions left to
right; at each position try the three alternatives in order; after a matched
alternative, run the greedy separator class, backtracking into it when the
captured class needs a character (the two classes overlap on the hyphen). -/

/-- The character class `[\s#:\-]` (ASCII whitespace per Python `\s`, plus the
literal hash, colon and hyphen). -/
def isSepChar (c : Char) : Bool :=
  c = ' ' || c = '\t' || c = '\n' || c = '\r' || c = '\x0b' || c = '\x0c' ||
  c = '#' || c = ':' || c = '-'

/-- The captured class `[A-Z0-9\-]` under `re.IGNORECASE`. -/
def isGroupChar (c : Char) : Bool :=
  ('A' ≤ c && c ≤ 'Z') || ('a' ≤ c && c ≤ 'z') || ('0' ≤ c && c ≤ '9') || c = '-'

/-- Case-insensitive literal match: when `pat` is a prefix of `l` up to ASCII
case, return the remaining input. -/
def matchLitCI : List Char → List Char → Option (List Char)
  | [], l => some l
  | _ :: _, [] => none
  | p :: ps, c :: cs => if p.toLower = c.toLower then matchLitCI ps cs else none

/-- The tail `[\s#:\-]*([A-Z0-9\-]+)` of the fallback regex with the greedy
backtracking resolved. The separator run is taken maximally; if the next
character is in the captured class the capture is its maximal run; otherwise
the engine backtracks into the separator run, which can only give back a
hyphen, so the capture is a single hyphen when the run contains one. -/
def sepGroupMatch (l : List Char) : Option (List Char) :=
  let s := l.takeWhile isSepChar
  let t := l.dropWhile isSepChar
  match t with
  | c :: _ =>
    if isGroupChar c then some (t.takeWhile isGroupChar)
    else if s.contains '-' then some ['-'] else none
  | [] => if s.contains '-' then some ['-'] else none

/-- Try the alternatives of `(?:PO|P\.O\.|Purchase Order)` in order at one
start position; on a literal match, the rest of the pattern must also match,
otherwise the next alternative is tried at the same position. -/
def tryPats : List (List Char) → List Char → Option (List Char)
  | [], _ => none
  | p :: ps, l =>
    match matchLitCI p l with
    | some rest =>
      match sepGroupMatch rest with
      | some g => some g
      | none => tryPats ps l
    | none => tryPats ps l

/-- The three alternatives of the fallback regex. -/
def poPats : List (List Char) := ["PO".data, "P.O.".data, "Purchase Order".data]

/-- Model of the whole `re.search`: scan start positions left to right and
return the first capture. -/
def searchPO : List Char → Option (List Char)
  | [] => none
  | c :: cs =>
    match tryPats poPats (c :: cs) with
    | some g => some g
    | none => searchPO cs

/-- The `customer_details` block of an extraction result. -/
structure CustomerDetails where
  company_name : Option String
  contact_person : Option String
  email : Option String
  phone : Option String
  billing_address : Option String
  shipping_address : Option String
deriving DecidableEq, Repr

/-- One entry of `order_items`. -/
structure OrderItem where
  item_code : Option String
  description : Option String
  quantity : Option ℚ
  unit_price : Option ℚ
  total_price : Option ℚ
  specifications : Option String
  delivery_date : Option String
deriving DecidableEq, Repr

/-- The `order_totals` block. -/
structure OrderTotals where
  subtotal : Option ℚ
  tax_amount : Option ℚ
  shipping_cost : Option ℚ
  total_amount : Option ℚ
  currency : Option String
deriving DecidableEq, Repr

/-- The `delivery_requirements` block. -/
structure DeliveryReqs where
  delivery_date : Option String
  shipping_method : Option String
  special_instructions : Option String
deriving DecidableEq, Repr

/-- The `payment_terms` block. -/
structure PaymentTerms where
  terms : Option String
  due_date : Option String
deriving DecidableEq, Repr

/-- The `extraction_notes` block attached only to fallback results. -/
structure ExtractionNotes where
  raw_text_preview : String
  extraction_error : String
  fallback_used : Bool
deriving DecidableEq, Repr

/-- The dict returned by `_create_fallback_structure`. -/
structure FallbackStructure where
  order_id : String
  customer_details : CustomerDetails
  order_items : List OrderItem
  order_totals : OrderTotals
  delivery_requirements : DeliveryReqs
  payment_terms : PaymentTerms
  extraction_notes : ExtractionNotes
deriving DecidableEq, Repr

/-- Model of `_create_fallback_structure`. The `file_path` argument is
accepted and, as in the source, not used in the returned dict. The synthetic
id uses the same strftime second format as the queue ids. -/
def create_fallback_structure (raw_text _file_path error_msg : String) (now : Nat) :
    FallbackStructure :=
  let order_id :=
    match searchPO raw_text.data with
    | some g => String.mk g
    | none => "EXTRACTED_" ++ Nat.repr (now / 1000000)
  { order_id := order_id
    customer_details :=
      { company_name := none, contact_person := none, email := none,
        phone := none, billing_address := none, shipping_address := none }
    order_items := []
    order_totals :=
      { subtotal := none, tax_amount := none, shipping_cost := none,
        total_amount := none, currency := some "USD" }
    delivery_requirements :=
      { delivery_date := none, shipping_method := none, special_instructions := none }
    payment_terms := { terms := none, due_date := none }
    extraction_notes :=
      { raw_text_preview :=
          if raw_text.length > 500 then raw_text.take 500 ++ "..." else raw_text
        extraction_error := error_msg
        fallback_used := true } }

/-- Outcome of `_format_with_gemini_api`: the raw Gemini response text on
success, or the fallback dict when anything raised inside the `try` block. -/
inductive GeminiOutcome where
  | ok (response : String)
  | fallback (fb : FallbackStructure)
deriving DecidableEq, Repr

/-- Model of `_format_with_gemini_api`, with the two exception sources made
explicit: `api_key = none` models a missing `GEMINI_API_KEY` (the code raises
the message below), and `call` models `_call_gemini_api`, which either
returns the response text or raises with a message. The surrounding
`try/except` converts every raise into `_create_fallback_structure`. -/
def format_with_gemini_api (api_key : Option String) (call : Except String String)
    (raw_text file_path : String) (now : Nat) : GeminiOutcome :=
  match api_key with
  | none =>
    .fallback (create_fallback_structure raw_text file_path
      "GEMINI_API_KEY not configured" now)
  | some _ =>
    match call with
    | .ok r => .ok r
    | .error e => .fallback (create_fallback_structure raw_text file_path e now)

/-- Model of `process_result`: flatten OCR output to centroid/text pairs.
Boxes are `[x1, y1, x2, y2]`; the loop runs to the shorter of the two lists
(`min_length` in the source), so no index is ever out of range. -/
def process_result : List (ℚ × ℚ × ℚ × ℚ) → List String → List ((ℚ × ℚ) × String)
  | (x1, y1, x2, y2) :: bs, t :: ts =>
    (((x1 + x2) / 2, (y1 + y2) / 2), t) :: process_result bs ts
  | _, _ => []

/-- The centroid map applied to one zipped box/text pair, for stating what
`process_result` computes. -/
def centroidOf (p : (ℚ × ℚ × ℚ × ℚ) × String) : (ℚ × ℚ) × String :=
  ((((p.1).1 + ((p.1).2).2.1) / 2, (((p.1).2).1 + ((p.1).2).2.2) / 2), p.2)

/-! ## Order record store (src/PO_Crew/tools/po_record_tool.py)

The MongoDB collection is external to the repository; it is modelled as an
association list keyed by the document `_id`, with `replace_one(upsert=True)`
semantics: replace the matching document in place, or append a new one. -/

/-- Opaque nested payloads (`customer_details` and friends) that the record
tool copies through unchanged. -/
abbrev Payload := List (String × String)

/-- An input order dict as consumed by `_prepare_order_document`. A `none`
models the corresponding key being absent from the dict, in which case the
source substitutes the documented default (for `order_id`, a fresh
`str(ObjectId())`). -/
structure OrderData where
  order_id : Option String
  source_file : Option String
  extraction_confidence : Option String
  customer_details : Option Payload
  order_items : Option (List Payload)
  order_totals : Option Payload
  delivery_requirements : Option Payload
  payment_terms : Option Payload
deriving DecidableEq, Repr

/-- The extraction metadata block attached to saved documents. -/
structure MetaIn where
  extraction_timestamp : Option String
  documents_processed : Option Nat
  extraction_status : Option String
deriving DecidableEq, Repr

/-- A stored MongoDB document, as assembled by `_prepare_order_document`. -/
structure PODocument where
  id : String
  order_id : Option String
  source_file : Option String
  extraction_confidence : Option String
  customer_details : Payload
  order_items : List Payload
  order_totals : Payload
  delivery_requirements : Payload
  payment_terms : Payload
  status : String
  created_at : Nat
  updated_at : Nat
  extraction_metadata : Option MetaIn
deriving DecidableEq, Repr

/-- Model of `_prepare_order_document`. `oid` is the fresh `str(ObjectId())`
drawn for this call, used as `_id` only when the `order_id` key is absent. -/
def prepare_order_document (order_data : OrderData) (extraction_metadata : Option MetaIn)
    (oid : String) (now : Nat) : PODocument :=
  { id := order_data.order_id.getD oid
    order_id := order_data.order_id
    source_file := order_data.source_file
    extraction_confidence := order_data.extraction_confidence
    customer_details := order_data.customer_details.getD []
    order_items := order_data.order_items.getD []
    order_totals := order_data.order_totals.getD []
    delivery_requirements := order_data.delivery_requirements.getD []
    payment_terms := order_data.payment_terms.getD []
    status := "pending"
    created_at := now
    updated_at := now
    extraction_metadata := extraction_metadata }

/-- The modelled collection: documents keyed by `_id` in insertion order. -/
abbrev Store := List (String × PODocument)

/-- Mongo `collection.replace_one(filter by _id, doc, upsert=True)`: replace
the first document whose key matches in place, otherwise append. The boolean
is true exactly when a fresh insert happened (`upserted_id` non-null). -/
def replace_one (k : String) (d : PODocument) : Store → Store × Bool
  | [] => ([(k, d)], true)
  | (k1, d1) :: rest =>
    if k1 = k then ((k, d) :: rest, false)
    else
      let (s, b) := replace_one k d rest
      ((k1, d1) :: s, b)

/-- The keys present in a store, in stored order. -/
def storeKeys (s : Store) : List String := s.map (·.1)

/-- First-match association lookup on a store. -/
def lookupStore (s : Store) (k : String) : Option PODocument :=
  (s.find? (fun p => p.1 = k)).map (·.2)

/-- One batch item of `_save_orders_to_mongodb`: the order dict, the fresh
ObjectId string this iteration would draw, and an optional injected exception
message. A `some` fault models the per-item `except Exception` arm firing
(malformed record, storage error) for this order. -/
structure BatchItem where
  order : OrderData
  oid : String
  fault : Option String
deriving DecidableEq, Repr

/-- One entry of the `saved_orders` summary list. -/
structure SavedOrder where
  order_id : Option String
  action : String
  document_id : String
deriving DecidableEq, Repr

/-- One entry of the `errors` summary list; `order_id` is
`order.get("order_id", "Unknown")`. -/
structure SaveError where
  order_id : String
  error : String
deriving DecidableEq, Repr

/-- The `for order in orders` loop of `_save_orders_to_mongodb`: a faulted
item only appends to `errors`; a clean item prepares its document, upserts it,
and appends the inserted/updated outcome. -/
def saveLoop (now : Nat) (meta : Option MetaIn) :
    List BatchItem → Store → Store × List SavedOrder × List SaveError
  | [], store => (store, [], [])
  | it :: rest, store =>
    match it.fault with
    | some e =>
      let (s, saved, errs) := saveLoop now meta rest store
      (s, saved, { order_id := it.order.order_id.getD "Unknown", error := e } :: errs)
    | none =>
      let doc := prepare_order_document it.order meta it.oid now
      let (store1, inserted) := replace_one doc.id doc store
      let (s, saved, errs) := saveLoop now meta rest store1
      (s, { order_id := doc.order_id
            action := if inserted then "inserted" else "updated"
            document_id := doc.id } :: saved, errs)

/-- The summary dict returned by `_save_orders_to_mongodb`. -/
structure SaveSummary where
  status : String
  saved_orders : List SavedOrder
  total_saved : Nat
  errors : List SaveError
deriving DecidableEq, Repr

/-- Model of `_save_orders_to_mongodb` on a reachable database connection. -/
def save_orders_to_mongodb (now : Nat) (meta : Option MetaIn)
    (items : List BatchItem) (store : Store) : Store × SaveSummary :=
  let (s, saved, errs) := saveLoop now meta items store
  (s, { status := if errs.isEmpty then "success" else "partial_success"
        saved_orders := saved
        total_saved := saved.length
        errors := errs })

/-- The store left by committing only the clean items of a batch, in order:
the reference against which fault isolation is stated. -/
def commitAll (now : Nat) (meta : Option MetaIn) : List BatchItem → Store → Store
  | [], store => store
  | it :: rest, store =>
    let doc := prepare_order_document it.order meta it.oid now
    commitAll now meta rest (replace_one doc.id doc store).1

/-- A bare write sequence: the documents a batch produces, keyed by `_id`. -/
def applyWrites : List (String × PODocument) → Store → Store
  | [], store => store
  | (k, d) :: ws, store => applyWrites ws (replace_one k d store).1

/-- The writes of a batch whose items all carry an `order_id`. -/
def writesOf (now : Nat) (meta : Option MetaIn) (items : List BatchItem) :
    List (String × PODocument) :=
  items.map (fun it =>
    let doc := prepare_order_document it.order meta it.oid now
    (doc.id, doc))

/-! ## Document generator (src/PO_Crew/tools/document_generator_tool.py) -/

/-- A dynamically typed Python value found in an item dict. `num` covers int
and float (modelled over the rationals), `other` any non-numeric non-string
object. -/
inductive PyVal where
  | num (q : ℚ)
  | str (s : String)
  | pynone
  | other
deriving DecidableEq, Repr

/-- An item dict of the `items` argument. -/
abbrev GenItem := List (String × PyVal)

/-- Python `item[k]` / `k in item` access: first-match dict lookup. -/
def dictGet (d : GenItem) (k : String) : Option PyVal :=
  (d.find? (fun p => p.1 = k)).map (·.2)

/-- Rendering used where the code interpolates a Python value into an error
message; faithful for strings, schematic for the rest. -/
def pyValStr : PyVal → String
  | .num _ => "<number>"
  | .str s => s
  | .pynone => "None"
  | .other => "<object>"

/-- Rendering of a whole item dict used inside the missing-field message
(Python interpolates `str(item)`; quoting is not reproduced). -/
def itemStr (item : GenItem) : String :=
  String.intercalate ", " (item.map (fun p => p.1 ++ ": " ++ pyValStr p.2))

/-- The required fields checked by `_validate_items_format`. -/
def requiredFields : List String := ["item_code", "description", "quantity", "unit_price"]

/-- The first required field missing from an item, if any. -/
def findMissing (fields : List String) (item : GenItem) : Option String :=
  fields.find? (fun f => (dictGet item f).isNone)

/-- The check `isinstance(v, (int, float)) and v > 0` on a field value. -/
def numPos : Option PyVal → Bool
  | some (.num q) => decide (0 < q)
  | _ => false

/-- The item code interpolated into the invalid-value messages:
`item.get("item_code", "Unknown")`. -/
def codeStr (item : GenItem) : String :=
  pyValStr ((dictGet item "item_code").getD (.str "Unknown"))

/-- Model of `_validate_items_format`: first failure raises `ValueError` with
the corresponding message (the source wraps the field name in quotes, which
the rendering omits); returns `true` when every item passes. -/
def validate_items_format : List GenItem → Except String Bool
  | [] => .ok true
  | item :: rest =>
    match findMissing requiredFields item with
    | some f => .error ("Missing required field " ++ f ++ " in item: " ++ itemStr item)
    | none =>
      if !numPos (dictGet item "quantity") then
        .error ("Invalid quantity for item " ++ codeStr item)
      else if !numPos (dictGet item "unit_price") then
        .error ("Invalid unit_price for item " ++ codeStr item)
      else validate_items_format rest

/-- Result of the document generator `_run`: the error JSON (message plus the
echoed supplier and action), a generated PDF (po number and path), or the
LaTeX source return (content abstracted, not claimed about). -/
inductive DocGenResult where
  | genError (message : String) (supplier_name : String) (action : String)
  | pdfOk (po_number : String) (pdf_file : String)
  | latexOk (po_number : String)
deriving DecidableEq, Repr

/-- Model of the document generator `_run`, returning the result together
with the list of file paths written (its side effects). `rand` models the
`random.randint(1000, 9999)` draw used when `po_number` is empty; the
generated LaTeX text itself is uninterpreted. Validation happens before any
write, and every raised `ValueError` is converted into the error result by
the surrounding `except`. -/
def docgen_run (action supplier_name : String) (items : List GenItem)
    (po_number : String) (now : Nat) (rand : Nat) : DocGenResult × List String :=
  if supplier_name = "" then (.genError "Supplier name is required" supplier_name action, [])
  else if items.isEmpty then (.genError "Items list cannot be empty" supplier_name action, [])
  else
    match validate_items_format items with
    | .error e => (.genError e supplier_name action, [])
    | .ok _ =>
      let po := if po_number = "" then
          "PO-" ++ Nat.repr (now / 1000000) ++ "-" ++ Nat.repr rand
        else po_number
      if action = "create_pdf_po" then
        ((.pdfOk po ("data/" ++ po ++ ".pdf")),
         ["data/" ++ po ++ ".tex", "data/" ++ po ++ ".pdf"])
      else if action = "create_latex_po" then (.latexOk po, [])
      else (.genError ("Unknown action: " ++ action) supplier_name action, [])

/-! ## Example inputs shared by witnesses and counterexamples -/

/-- A sample validation payload. -/
def exData : VData := [("total_cost", "2850.50"), ("supplier_count", "2")]

/-- A sample pending record with id PQ_1. -/
def exPending : QRequest :=
  { request_id := "PQ_1", timestamp := 1000000, status := "pending",
    validation_data := exData, created_by := "purchase_validation_agent",
    completed_at := none, processed_by := none }

/-- A sample completed record with id PQ_0. -/
def exCompleted : QRequest :=
  { request_id := "PQ_0", timestamp := 0, status := "completed",
    validation_data := exData, created_by := "purchase_validation_agent",
    completed_at := some 3000000, processed_by := some "purchase_order_agent" }

/-- A sample queue state: one pending, one completed. -/
def exQueue : QueueData :=
  { pending_requests := [exPending], completed_requests := [exCompleted],
    created_at := 0, last_updated := 3000000 }

/-- The raw text of the spec scenario for the extraction fallback. -/
def exRawText : String := "PO Number: PO-99-X raw garbled text..."

/-- An order dict that lacks the order_id key. -/
def exOrderNoId : OrderData :=
  { order_id := none, source_file := some "a.pdf", extraction_confidence := none,
    customer_details := none, order_items := none, order_totals := none,
    delivery_requirements := none, payment_terms := none }

/-- An order dict keyed PO-2025-001. -/
def exOrderWithId : OrderData :=
  { order_id := some "PO-2025-001", source_file := some "a.pdf",
    extraction_confidence := none, customer_details := none,
    order_items := some [[("item_code", "ITM001")]], order_totals := none,
    delivery_requirements := none, payment_terms := none }

/-- A well-formed generator item. -/
def exGoodItem : GenItem :=
  [("item_code", .str "ITM001"), ("description", .str "Widget A"),
   ("quantity", .num 100), ("unit_price", .num (51 / 2))]

/-- A generator item with a non-positive quantity. -/
def exBadQtyItem : GenItem :=
  [("item_code", .str "ITM002"), ("description", .str "Widget B"),
   ("quantity", .num 0), ("unit_price", .num 10)]

/-- A generator item missing the unit_price field. -/
def exNoPriceItem : GenItem :=
  [("item_code", .str "ITM003"), ("description", .str "Widget C"),
   ("quantity", .num 5)]

/-- A trace with two enqueues inside the same clock second (microsecond
readings 0 and 500000) followed by one completion. -/
def exOpsSame : List QOp :=
  [QOp.enqueue (some exData) 0, QOp.enqueue (some exData) 500000,
   QOp.complete (some "PQ_0") 2000000]

/-- A trace with two enqueues in distinct clock seconds followed by one
completion. -/
def exOpsDistinct : List QOp :=
  [QOp.enqueue (some exData) 0, QOp.enqueue (some exData) 1000000,
   QOp.complete (some "PQ_0") 3000000]

end PoAgent

/-! # Theorems -/

namespace PoAgent

/-! ## Injectivity of the decimal rendering used by `generate_request_id` -/

/-- The accumulator of `Nat.toDigitsCore` is simply appended on the right. -/
theorem toDigitsCore_append (fuel : Nat) :
    ∀ (n : Nat) (ds : List Char),
      Nat.toDigitsCore 10 fuel n ds = Nat.toDigitsCore 10 fuel n [] ++ ds := by
  induction fuel with
  | zero => intro n ds; simp [Nat.toDigitsCore]
  | succ f ih =>
    intro n ds
    simp only [Nat.toDigitsCore]
    by_cases h : n / 10 = 0
    · simp [h]
    · simp only [h, if_false]
      rw [ih (n / 10) (Nat.digitChar (n % 10) :: ds),
        ih (n / 10) [Nat.digitChar (n % 10)], List.append_assoc]
      rfl

/-- The decimal digit characters decode back to their values. -/
theorem digitChar_toNat : ∀ k < 10, (Nat.digitChar k).toNat = 48 + k := by decide

/-- With enough fuel, `decDigits` inverts `Nat.toDigitsCore 10`. -/
theorem decDigits_toDigitsCore (fuel : Nat) :
    ∀ n : Nat, n < 10 ^ fuel → decDigits (Nat.toDigitsCore 10 fuel n []) = n := by
  induction fuel with
  | zero =>
    intro n hn
    have : n = 0 := by simpa using hn
    simp [this, Nat.toDigitsCore, decDigits]
  | succ f ih =>
    intro n hn
    have hmod : n % 10 < 10 := Nat.mod_lt _ (by norm_num)
    simp only [Nat.toDigitsCore]
    by_cases h : n / 10 = 0
    · have hlt : n < 10 := by omega
      simp only [h, if_true, decDigits, List.foldl]
      have := digitChar_toNat (n % 10) hmod
      omega
    · simp only [h, if_false]
      rw [toDigitsCore_append f (n / 10) [Nat.digitChar (n % 10)]]
      have hdiv : n / 10 < 10 ^ f := by
        rw [Nat.div_lt_iff_lt_mul (by norm_num : 0 < 10)]
        calc n < 10 ^ (f + 1) := hn
        _ = 10 ^ f * 10 := by ring
      have hrec := ih (n / 10) hdiv
      have hd := digitChar_toNat (n % 10) hmod
      simp only [decDigits] at hrec ⊢
      rw [List.foldl_append, hrec]
      simp only [List.foldl]
      omega

/-- `decDigits` inverts `Nat.repr`. -/
theorem decDigits_repr (n : Nat) : decDigits (Nat.repr n).data = n := by
  have hn : n < 10 ^ (n + 1) := by
    calc n < 2 ^ n := Nat.lt_two_pow n
    _ ≤ 10 ^ n := Nat.pow_le_pow_left (by norm_num) n
    _ ≤ 10 ^ (n + 1) := Nat.pow_le_pow_right (by norm_num) (Nat.le_succ n)
  have : (Nat.repr n).data = Nat.toDigitsCore 10 (n + 1) n [] := rfl
  rw [this]
  exact decDigits_toDigitsCore (n + 1) n hn

/-- The decimal rendering of naturals is injective. -/
theorem repr_nat_injective {m n : Nat} (h : Nat.repr m = Nat.repr n) : m = n := by
  have := congrArg (fun s => decDigits s.data) h
  simpa [decDigits_repr] using this

/-- Left cancellation for string append. -/
theorem string_append_cancel {s a b : String} (h : s ++ a = s ++ b) : a = b := by
  have hd := congrArg String.data h
  simp only [String.data_append] at hd
  have h2 := List.append_cancel_left hd
  cases a; cases b; exact congrArg String.mk h2

/-- Two request ids agree exactly when their clock seconds agree: the format
collapses times within a second and separates times in different seconds. -/
theorem generate_request_id_inj {t1 t2 : Nat}
    (h : generate_request_id t1 = generate_request_id t2) :
    t1 / 1000000 = t2 / 1000000 :=
  repr_nat_injective (string_append_cancel h)

/-! ## Queue helper lemmas -/

/-- Full characterization of the `_mark_completed` search loop: either no
pending record carries the id, or the list splits around the first match. -/
theorem markFirst_cases (rid : String) (now : Nat) (l : List QRequest) :
    (markFirst rid now l = none ∧ rid ∉ l.map (·.request_id)) ∨
    (∃ r l1 l2, l = l1 ++ r :: l2 ∧ r.request_id = rid ∧
      (∀ x ∈ l1, x.request_id ≠ rid) ∧
      markFirst rid now l =
        some ({ r with status := "completed"
                       completed_at := some now
                       processed_by := some "purchase_order_agent" }, l1 ++ l2)) := by
  induction l with
  | nil => exact Or.inl ⟨rfl, by simp⟩
  | cons r rs ih =>
    by_cases h : r.request_id = rid
    · exact Or.inr ⟨r, [], rs, rfl, h, by simp, by simp [markFirst, h]⟩
    · rcases ih with ⟨hm, hmem⟩ | ⟨r0, l1, l2, hl, hr, hall, hm⟩
      · refine Or.inl ⟨by simp [markFirst, h, hm], ?_⟩
        simp only [List.map_cons, List.mem_cons]
        rintro (hx | hx)
        · exact h hx.symm
        · exact hmem hx
      · refine Or.inr ⟨r0, r :: l1, l2, by rw [hl]; rfl, hr, ?_, ?_⟩
        · intro x hx
          rcases List.mem_cons.mp hx with hx | hx
          · rw [hx]; exact h
          · exact hall x hx
        · simp [markFirst, h, hm]

/-- The search loop fails exactly when the id is absent from pending. -/
theorem markFirst_eq_none_iff (rid : String) (now : Nat) (l : List QRequest) :
    markFirst rid now l = none ↔ rid ∉ l.map (·.request_id) := by
  rcases markFirst_cases rid now l with ⟨hm, hmem⟩ | ⟨r, l1, l2, hl, hr, _, hm⟩
  · simp [hm, hmem]
  · rw [hm]
    constructor
    · intro hc; cases hc
    · intro hmem
      exact absurd (by rw [hl]; simp [hr] : rid ∈ l.map (·.request_id)) hmem

/-- A successful search returns the first matching record, completed-stamped,
together with the list around it. -/
theorem markFirst_some_decomp {rid : String} {now : Nat} {l : List QRequest}
    {u : QRequest} {rest : List QRequest}
    (h : markFirst rid now l = some (u, rest)) :
    ∃ r l1 l2, l = l1 ++ r :: l2 ∧ r.request_id = rid ∧
      u = { r with status := "completed"
                   completed_at := some now
                   processed_by := some "purchase_order_agent" } ∧ rest = l1 ++ l2 := by
  rcases markFirst_cases rid now l with ⟨hm, _⟩ | ⟨r, l1, l2, hl, hr, _, hm⟩
  · rw [h] at hm; cases hm
  · rw [h] at hm
    have := Option.some.inj hm
    exact ⟨r, l1, l2, hl, hr, (Prod.mk.injEq _ _ _ _ ▸ this).1,
      (Prod.mk.injEq _ _ _ _ ▸ this).2⟩

/-- Moving a record out of pending removes exactly one occurrence of its id. -/
theorem markFirst_count {rid : String} {now : Nat} {l : List QRequest}
    {u : QRequest} {rest : List QRequest}
    (h : markFirst rid now l = some (u, rest)) (x : String) :
    (l.map (·.request_id)).count x =
      (rest.map (·.request_id)).count x + (if x = rid then 1 else 0) := by
  obtain ⟨r, l1, l2, hl, hr, _, hrest⟩ := markFirst_some_decomp h
  subst hl; subst hrest
  simp only [List.map_append, List.map_cons, List.count_append, List.count_cons,
    beq_iff_eq, hr]
  by_cases hx : x = rid
  · subst hx; simp; omega
  · rw [if_neg (fun hh => hx hh.symm), if_neg hx]; omega

/-- The id struck by a successful search is the searched id. -/
theorem markFirst_id {rid : String} {now : Nat} {l : List QRequest}
    {u : QRequest} {rest : List QRequest}
    (h : markFirst rid now l = some (u, rest)) : u.request_id = rid := by
  obtain ⟨r, _, _, _, hr, hu, _⟩ := markFirst_some_decomp h
  rw [hu]; exact hr

/-! ## Claim C2 -/

/-- C2: for every queue state and non-empty request id, completing a pending
id succeeds exactly when the id is pending; a success stamps the first
matching record completed with `completed_at` set, moves it from pending to
completed, persists (refreshing `last_updated`), and reports the new pending
count; an absent id yields not-found with the state left untouched, so an
already-completed id yields not-found with both counts unchanged, and when
the id occurred once in pending a second completion attempt after the first
success again yields not-found and leaves the new state untouched. -/
theorem mark_completed_spec (q : QueueData) (rid : String) (now : Nat) (hne : rid ≠ "") :
    ((markFirst rid now q.pending_requests).isSome ↔ rid ∈ pendingIds q) ∧
    (∀ u rest, markFirst rid now q.pending_requests = some (u, rest) →
      (∃ r ∈ q.pending_requests, r.request_id = rid ∧
        u = { r with status := "completed"
                     completed_at := some now
                     processed_by := some "purchase_order_agent" }) ∧
      mark_completed (some rid) now q =
        ({ pending_requests := rest
           completed_requests := q.completed_requests ++ [u]
           created_at := q.created_at
           last_updated := now }, QueueResult.completedOk rid rest.length) ∧
      q.pending_requests.length = rest.length + 1) ∧
    (rid ∉ pendingIds q → mark_completed (some rid) now q = (q, QueueResult.notFound rid)) ∧
    (rid ∈ completedIds q → rid ∉ pendingIds q →
      mark_completed (some rid) now q = (q, QueueResult.notFound rid) ∧
      get_queue_status (mark_completed (some rid) now q).1 = get_queue_status q) ∧
    ((pendingIds q).count rid = 1 →
      ∀ u rest now2, markFirst rid now q.pending_requests = some (u, rest) →
        mark_completed (some rid) now2 (mark_completed (some rid) now q).1 =
          ((mark_completed (some rid) now q).1, QueueResult.notFound rid)) := by
  refine ⟨?_, ?_, ?_, ?_, ?_⟩
  · rw [Option.isSome_iff_ne_none, Ne, markFirst_eq_none_iff]
    exact not_not
  · intro u rest h
    obtain ⟨r, l1, l2, hl, hr, hu, hrest⟩ := markFirst_some_decomp h
    refine ⟨⟨r, by rw [hl]; simp, hr, hu⟩, ?_, ?_⟩
    · simp [mark_completed, hne, h, save_queue]
    · rw [hl, hrest]; simp; omega
  · intro hmem
    have hnone : markFirst rid now q.pending_requests = none :=
      (markFirst_eq_none_iff rid now q.pending_requests).mpr hmem
    simp [mark_completed, hne, hnone]
  · intro _ hmem
    have hnone : markFirst rid now q.pending_requests = none :=
      (markFirst_eq_none_iff rid now q.pending_requests).mpr hmem
    constructor
    · simp [mark_completed, hne, hnone]
    · simp [mark_completed, hne, hnone]
  · intro hcount u rest now2 h
    have hq1 : (mark_completed (some rid) now q).1 =
        { pending_requests := rest
          completed_requests := q.completed_requests ++ [u]
          created_at := q.created_at
          last_updated := now } := by
      simp [mark_completed, hne, h, save_queue]
    have hrest0 : (rest.map (·.request_id)).count rid = 0 := by
      have := markFirst_count h rid
      simp only [if_pos rfl] at this
      have hc : (pendingIds q).count rid =
          (rest.map (·.request_id)).count rid + 1 := this
      omega
    have hnot : rid ∉ rest.map (·.request_id) := List.count_eq_zero.mp hrest0
    have hnone : markFirst rid now2 rest = none :=
      (markFirst_eq_none_iff rid now2 rest).mpr hnot
    rw [hq1]
    simp [mark_completed, hne, hnone]

/-- Witness for C2 on a concrete state with one pending and one completed
record. -/
theorem mark_completed_spec_witness :
    (mark_completed (some "PQ_1") 4000000 exQueue).2 =
      QueueResult.completedOk "PQ_1" 0 ∧
    mark_completed (some "PQ_0") 4000000 exQueue =
      (exQueue, QueueResult.notFound "PQ_0") := by
  have h1 := mark_completed_spec exQueue "PQ_1" 4000000 (by decide)
  have h0 := mark_completed_spec exQueue "PQ_0" 4000000 (by decide)
  constructor
  · have h2 := (h1.2.1 { exPending with
      status := "completed"
      completed_at := some 4000000
      processed_by := some "purchase_order_agent" } [] (by decide)).2.1
    rw [h2]
    rfl
  · exact (h0.2.2.2.1 (by decide) (by decide)).1

/-! ## Claim C3 -/

/-- C3: enqueueing a non-empty payload appends a pending record carrying the
generated `PQ_` id, the creation clock, status pending and the payload
unchanged, persists (refreshing `last_updated`), and reports the new id
together with the new pending count. -/
theorem add_to_queue_spec (data : VData) (now : Nat) (q : QueueData) (hne : data ≠ []) :
    add_to_queue (some data) now q =
      ({ pending_requests := q.pending_requests ++
           [{ request_id := generate_request_id now
              timestamp := now
              status := "pending"
              validation_data := data
              created_by := "purchase_validation_agent"
              completed_at := none
              processed_by := none }]
         completed_requests := q.completed_requests
         created_at := q.created_at
         last_updated := now },
       QueueResult.added (generate_request_id now) (q.pending_requests.length + 1)) ∧
    generate_request_id now = "PQ_" ++ Nat.repr (now / 1000000) := by
  have hf : isFalsyData (some data) = false := by
    simp [isFalsyData, List.isEmpty_iff, hne]
  constructor
  · simp [add_to_queue, hf, save_queue]
  · rfl

/-- Witness for C3 at a concrete payload, clock and state. -/
theorem add_to_queue_spec_witness :
    (add_to_queue (some exData) 5000000 exQueue).2 =
      QueueResult.added "PQ_5" 2 := by
  rw [(add_to_queue_spec exData 5000000 exQueue (by decide)).1]
  decide

/-! ## Trace-level id accounting -/

/-- One queue operation adds exactly the id of a successful enqueue to the
stored ids; completions move a record between the sub-collections without
changing id multiplicities. -/
theorem count_applyOp (q : QueueData) (op : QOp) (x : String) :
    (allIds (applyOp q op)).count x =
      (allIds q).count x + (createdIds [op]).count x := by
  cases op with
  | enqueue d t =>
    cases hf : isFalsyData d
    · simp only [applyOp, add_to_queue, hf, Bool.false_eq_true, if_false, save_queue,
        createdIds, allIds, pendingIds, completedIds, List.map_append, List.map_cons,
        List.map_nil, List.count_append, List.count_cons, List.count_nil]
      omega
    · simp [applyOp, add_to_queue, hf, createdIds]
  | complete r t =>
    cases r with
    | none => simp [applyOp, mark_completed, createdIds]
    | some rid =>
      by_cases hrid : rid = ""
      · simp [applyOp, mark_completed, hrid, createdIds]
      · cases hm : markFirst rid t q.pending_requests with
        | none => simp [applyOp, mark_completed, hrid, hm, createdIds]
        | some p =>
          obtain ⟨u, rest⟩ := p
          have hcnt := markFirst_count hm x
          have hid := markFirst_id hm
          have hstate : applyOp q (QOp.complete (some rid) t) =
              { pending_requests := rest
                completed_requests := q.completed_requests ++ [u]
                created_at := q.created_at
                last_updated := t } := by
            simp [applyOp, mark_completed, hrid, hm, save_queue]
          rw [hstate]
          simp only [allIds, pendingIds, completedIds, createdIds, List.map_append,
            List.map_cons, List.map_nil, List.count_append, List.count_cons,
            List.count_nil, hid]
          have hif : (if rid == x then (1 : Nat) else 0) = (if x = rid then 1 else 0) := by
            by_cases hx : x = rid
            · simp [hx]
            · simp [beq_iff_eq, hx, Ne.symm hx]
          rw [hif]
          omega

/-- Over a whole trace, the stored ids are exactly the created ids, with
multiplicity, on top of whatever the starting state held. -/
theorem count_runOps (ops : List QOp) (q : QueueData) (x : String) :
    (allIds (runOps q ops)).count x =
      (allIds q).count x + (createdIds ops).count x := by
  induction ops generalizing q with
  | nil => simp [runOps, createdIds]
  | cons op ops ih =>
    have hstep := count_applyOp q op x
    have hcons : (createdIds (op :: ops)).count x =
        (createdIds [op]).count x + (createdIds ops).count x := by
      cases op with
      | enqueue d t =>
        cases hf : isFalsyData d
        · simp [createdIds, hf, List.count_cons]
          omega
        · simp [createdIds, hf]
      | complete r t => simp [createdIds]
    have : runOps q (op :: ops) = runOps (applyOp q op) ops := rfl
    rw [this, ih (applyOp q op), hstep, hcons]
    omega

/-- Created ids are the second-format renderings of the successful enqueue
seconds. -/
theorem createdIds_eq_map (ops : List QOp) :
    createdIds ops = (createdSeconds ops).map (fun s => "PQ_" ++ Nat.repr s) := by
  induction ops with
  | nil => rfl
  | cons op ops ih =>
    cases op with
    | enqueue d t =>
      cases hf : isFalsyData d
      · simp [createdIds, createdSeconds, hf, ih, generate_request_id]
      · simp [createdIds, createdSeconds, hf, ih]
    | complete r t => simpa [createdIds, createdSeconds] using ih

/-- The successful enqueue seconds form a sublist of all enqueue seconds. -/
theorem createdSeconds_sublist (ops : List QOp) :
    List.Sublist (createdSeconds ops) (enqueueSeconds ops) := by
  induction ops with
  | nil => simp [createdSeconds, enqueueSeconds]
  | cons op ops ih =>
    cases op with
    | enqueue d t =>
      cases hf : isFalsyData d
      · simpa [createdSeconds, enqueueSeconds, hf] using ih.cons₂ (t / 1000000)
      · simpa [createdSeconds, enqueueSeconds, hf] using ih.cons (t / 1000000)
    | complete r t => simpa [createdSeconds, enqueueSeconds] using ih

/-- With pairwise distinct enqueue seconds, the created ids are pairwise
distinct. -/
theorem createdIds_nodup (ops : List QOp) (h : (enqueueSeconds ops).Nodup) :
    (createdIds ops).Nodup := by
  rw [createdIds_eq_map]
  refine List.Nodup.map ?_ ((createdSeconds_sublist ops).nodup h)
  intro a b hab
  exact repr_nat_injective (string_append_cancel hab)

/-! ## Claim C1 -/

/-- C1 is violated as stated: in the trace `exOpsSame` the two enqueues fall
in the same clock second, create the single id PQ_0 twice, and after one
completion that created id sits in both sub-collections at once. -/
theorem queue_exactly_one_counterexample :
    "PQ_0" ∈ createdIds exOpsSame ∧
    "PQ_0" ∈ pendingIds (runOps (init_queue 0) exOpsSame) ∧
    "PQ_0" ∈ completedIds (runOps (init_queue 0) exOpsSame) := by decide

/-- C1 amended: for every operation sequence from the empty queue in which no
two enqueue calls fall within the same clock second, every request id created
by an enqueue is stored in exactly one of the two sub-collections — its
pending and completed occurrence counts sum to one, so it is never in both
and never in neither after creation. -/
theorem queue_exactly_one_invariant (ops : List QOp) (t0 : Nat)
    (hsec : (enqueueSeconds ops).Nodup) :
    ∀ id0 ∈ createdIds ops,
      (pendingIds (runOps (init_queue t0) ops)).count id0 +
        (completedIds (runOps (init_queue t0) ops)).count id0 = 1 := by
  intro id0 hmem
  have h1 := count_runOps ops (init_queue t0) id0
  have h2 : (allIds (init_queue t0)).count id0 = 0 := by
    simp [init_queue, allIds, pendingIds, completedIds]
  have h3 : (createdIds ops).count id0 = 1 :=
    List.count_eq_one_of_mem (createdIds_nodup ops hsec) hmem
  have h4 : (allIds (runOps (init_queue t0) ops)).count id0 =
      (pendingIds (runOps (init_queue t0) ops)).count id0 +
        (completedIds (runOps (init_queue t0) ops)).count id0 :=
    List.count_append id0 _ _
  omega

/-- Witness for the amended C1 on a concrete distinct-second trace. -/
theorem queue_exactly_one_invariant_witness :
    (pendingIds (runOps (init_queue 0) exOpsDistinct)).count "PQ_0" +
      (completedIds (runOps (init_queue 0) exOpsDistinct)).count "PQ_0" = 1 :=
  queue_exactly_one_invariant exOpsDistinct 0 (by decide) "PQ_0" (by decide)

/-! ## Claim C4 -/

/-- C4 is violated as stated: two enqueue calls within the same clock second
(microsecond readings 0 and 500000) produce the same request id, so after the
two enqueues the stored ids are not pairwise distinct. -/
theorem request_ids_unique_counterexample :
    generate_request_id 0 = generate_request_id 500000 ∧
    ¬ (allIds (runOps (init_queue 0)
        [QOp.enqueue (some exData) 0, QOp.enqueue (some exData) 500000])).Nodup := by
  decide

/-- C4 amended: for every operation sequence from the empty queue whose
enqueue calls fall in pairwise distinct clock seconds, the request ids
produced are pairwise distinct among all currently pending and completed
entries; two enqueues within one second collide instead. -/
theorem request_ids_unique (ops : List QOp) (t0 : Nat)
    (hsec : (enqueueSeconds ops).Nodup) :
    (allIds (runOps (init_queue t0) ops)).Nodup := by
  rw [List.nodup_iff_count_le_one]
  intro a
  have h1 := count_runOps ops (init_queue t0) a
  have h2 : (allIds (init_queue t0)).count a = 0 := by
    simp [init_queue, allIds, pendingIds, completedIds]
  have h3 : (createdIds ops).count a ≤ 1 :=
    List.nodup_iff_count_le_one.mp (createdIds_nodup ops hsec) a
  omega

/-- Witness for the amended C4 on a concrete distinct-second trace. -/
theorem request_ids_unique_witness :
    (allIds (runOps (init_queue 0) exOpsDistinct)).Nodup :=
  request_ids_unique exOpsDistinct 0 (by decide)

/-! ## Fallback regex lemmas -/

/-- Whatever the separator/capture tail returns is a non-empty token of the
captured class (letters, digits, hyphens). -/
theorem sepGroupMatch_token (l g : List Char) (h : sepGroupMatch l = some g) :
    g ≠ [] ∧ g.all isGroupChar = true := by
  simp only [sepGroupMatch] at h
  split at h
  next c cs heq =>
    rw [heq] at h
    by_cases hg : isGroupChar c
    · rw [if_pos hg] at h
      have hge := Option.some.inj h
      subst hge
      constructor
      · simp [List.takeWhile_cons, hg]
      · rw [List.all_eq_true]
        intro a ha
        exact List.mem_takeWhile_imp ha
    · rw [if_neg hg] at h
      by_cases hc : (l.takeWhile isSepChar).contains '-'
      · rw [if_pos hc] at h
        have hge := Option.some.inj h
        subst hge
        exact ⟨by simp, by decide⟩
      · rw [if_neg hc] at h
        cases h
  next heq =>
    by_cases hc : (l.takeWhile isSepChar).contains '-'
    · rw [if_pos hc] at h
      have hge := Option.some.inj h
      subst hge
      exact ⟨by simp, by decide⟩
    · rw [if_neg hc] at h
      cases h

/-- Alternative dispatch preserves the token shape. -/
theorem tryPats_token (ps : List (List Char)) (l g : List Char)
    (h : tryPats ps l = some g) : g ≠ [] ∧ g.all isGroupChar = true := by
  induction ps generalizing g with
  | nil => cases h
  | cons p ps ih =>
    simp only [tryPats] at h
    cases hm : matchLitCI p l with
    | none =>
      simp only [hm] at h
      exact ih g h
    | some rest =>
      simp only [hm] at h
      cases hs : sepGroupMatch rest with
      | none =>
        simp only [hs] at h
        exact ih g h
      | some g0 =>
        simp only [hs] at h
        have := Option.some.inj h
        subst this
        exact sepGroupMatch_token rest g0 hs

/-- Every capture of the fallback regex search is a non-empty token of the
captured class. -/
theorem searchPO_token (l g : List Char) (h : searchPO l = some g) :
    g ≠ [] ∧ g.all isGroupChar = true := by
  induction l with
  | nil => cases h
  | cons c cs ih =>
    simp only [searchPO] at h
    cases hm : tryPats poPats (c :: cs) with
    | some g0 =>
      simp only [hm] at h
      have := Option.some.inj h
      subst this
      exact tryPats_token poPats (c :: cs) g0 hm
    | none =>
      simp only [hm] at h
      exact ih h

/-! ## Claim C5 -/

/-- C5 is violated as stated at one point: the fallback does not null every
other structured field — order_totals.currency is the literal USD. -/
theorem extraction_fallback_counterexample :
    (create_fallback_structure "garbled" "f.pdf" "no credentials" 0).order_totals.currency
        = some "USD" ∧
    (create_fallback_structure "garbled" "f.pdf" "no credentials" 0).order_totals.currency
        ≠ none := by
  exact ⟨rfl, by decide⟩

/-- C5 amended: for every raw text and every exception raised by the
structuring step (missing credential modelled by a missing key, any raising
call modelled by an error value), the pipeline returns a Fallback Result and
never propagates: order_id is the regex capture — a non-empty token of
letters, digits and hyphens — or an EXTRACTED_ timestamp id when there is no
match; every other structured field is null except order_items, which is the
empty list, and order_totals.currency, which is the literal USD; the raw
input truncated to its first 500 characters (with a trailing ellipsis when
truncation happened) is stored as the preview, the literal error message is
stored, and fallback_used is true. -/
theorem extraction_fallback_spec (raw_text file_path : String) (api_key : Option String)
    (call : Except String String) (emsg : String) (now : Nat)
    (hfail : (api_key = none ∧ emsg = "GEMINI_API_KEY not configured") ∨
             ((∃ k, api_key = some k) ∧ call = Except.error emsg)) :
    ∃ fb, format_with_gemini_api api_key call raw_text file_path now = .fallback fb ∧
      fb.extraction_notes.fallback_used = true ∧
      fb.extraction_notes.extraction_error = emsg ∧
      fb.extraction_notes.raw_text_preview =
        (if raw_text.length > 500 then raw_text.take 500 ++ "..." else raw_text) ∧
      fb.customer_details = ⟨none, none, none, none, none, none⟩ ∧
      fb.order_items = [] ∧
      fb.order_totals = ⟨none, none, none, none, some "USD"⟩ ∧
      fb.delivery_requirements = ⟨none, none, none⟩ ∧
      fb.payment_terms = ⟨none, none⟩ ∧
      (∀ g, searchPO raw_text.data = some g →
        fb.order_id = String.mk g ∧ g ≠ [] ∧ g.all isGroupChar = true) ∧
      (searchPO raw_text.data = none →
        fb.order_id = "EXTRACTED_" ++ Nat.repr (now / 1000000)) := by
  have main : ∀ e : String,
      (∀ g, searchPO raw_text.data = some g →
        (create_fallback_structure raw_text file_path e now).order_id = String.mk g ∧
          g ≠ [] ∧ g.all isGroupChar = true) ∧
      (searchPO raw_text.data = none →
        (create_fallback_structure raw_text file_path e now).order_id =
          "EXTRACTED_" ++ Nat.repr (now / 1000000)) := by
    intro e
    constructor
    · intro g hg
      refine ⟨?_, (searchPO_token _ _ hg).1, (searchPO_token _ _ hg).2⟩
      simp [create_fallback_structure, hg]
    · intro hg
      simp [create_fallback_structure, hg]
  rcases hfail with ⟨hk, he⟩ | ⟨⟨k, hk⟩, hc⟩
  · subst hk; subst he
    exact ⟨_, rfl, rfl, rfl, rfl, rfl, rfl, rfl, rfl, rfl,
      (main "GEMINI_API_KEY not configured").1, (main "GEMINI_API_KEY not configured").2⟩
  · subst hk; subst hc
    exact ⟨_, rfl, rfl, rfl, rfl, rfl, rfl, rfl, rfl, rfl, (main emsg).1, (main emsg).2⟩

/-- Witness for the amended C5 with a concrete missing-credential failure. -/
theorem extraction_fallback_spec_witness :
    ∃ fb, format_with_gemini_api none (.ok "ignored") "x" "f.pdf" 0 = .fallback fb ∧
      fb.extraction_notes.fallback_used = true := by
  obtain ⟨fb, h1, h2, -⟩ := extraction_fallback_spec "x" "f.pdf" none (.ok "ignored")
    "GEMINI_API_KEY not configured" 0 (Or.inl ⟨rfl, rfl⟩)
  exact ⟨fb, h1, h2⟩

/-! ## Claim C6 -/

/-- C6 is violated as stated: on the scenario text the regex already matches
the PO of the label PO Number at position 0 and captures Number, so the
fallback order_id is Number, not PO-99-X. -/
theorem scenario_order_id_counterexample :
    (create_fallback_structure exRawText "doc.pdf" "no credentials" 0).order_id = "Number" ∧
    (create_fallback_structure exRawText "doc.pdf" "no credentials" 0).order_id ≠ "PO-99-X" := by
  exact ⟨rfl, by decide⟩

/-- C6 amended: when the structuring call raises for the scenario raw text,
the resulting Fallback Result has order_id Number — the capture following the
first case-insensitive PO occurrence, which is the label PO Number: — and
extraction_notes.fallback_used = true. -/
theorem scenario_order_id_amended :
    ∃ fb, format_with_gemini_api (some "key") (Except.error "no credentials")
        exRawText "doc.pdf" 0 = .fallback fb ∧
      fb.order_id = "Number" ∧ fb.extraction_notes.fallback_used = true :=
  ⟨_, rfl, rfl, rfl⟩

/-! ## Store upsert lemmas -/

/-- Unfolding of `replace_one` past a non-matching head. -/
theorem replace_one_cons_ne (k k1 : String) (d d1 : PODocument) (rest : Store)
    (h : k1 ≠ k) :
    replace_one k d ((k1, d1) :: rest) =
      ((k1, d1) :: (replace_one k d rest).1, (replace_one k d rest).2) := by
  simp [replace_one, h]

/-- First-match lookup unfolding. -/
theorem lookupStore_cons (k1 : String) (d1 : PODocument) (rest : Store) (k : String) :
    lookupStore ((k1, d1) :: rest) k =
      if k1 = k then some d1 else lookupStore rest k := by
  by_cases h : k1 = k <;> simp [lookupStore, List.find?_cons, h]

/-- An upsert on an existing key keeps the key list; on a new key it appends
the key. -/
theorem replace_one_keys (k : String) (d : PODocument) (s : Store) :
    storeKeys (replace_one k d s).1 =
      if k ∈ storeKeys s then storeKeys s else storeKeys s ++ [k] := by
  induction s with
  | nil => simp [replace_one, storeKeys]
  | cons p rest ih =>
    obtain ⟨k1, d1⟩ := p
    by_cases h : k1 = k
    · subst h
      simp [replace_one, storeKeys]
    · rw [replace_one_cons_ne k k1 d d1 rest h]
      simp only [storeKeys, List.map_cons] at ih ⊢
      rw [ih]
      by_cases hmem : k ∈ List.map (fun p => p.1) rest
      · rw [if_pos hmem, if_pos (by simp [hmem])]
      · rw [if_neg hmem, if_neg (by simp [hmem, Ne.symm h])]
        rfl

/-- The upserted key is present afterwards. -/
theorem mem_keys_replace_one_self (k : String) (d : PODocument) (s : Store) :
    k ∈ storeKeys (replace_one k d s).1 := by
  rw [replace_one_keys]
  by_cases hmem : k ∈ storeKeys s
  · rw [if_pos hmem]; exact hmem
  · rw [if_neg hmem]; simp

/-- Upserting looks up to the written document. -/
theorem lookup_replace_one_self (k : String) (d : PODocument) (s : Store) :
    lookupStore (replace_one k d s).1 k = some d := by
  induction s with
  | nil => simp [replace_one, lookupStore, List.find?_cons]
  | cons p rest ih =>
    obtain ⟨k1, d1⟩ := p
    by_cases h : k1 = k
    · subst h
      simp [replace_one, lookupStore, List.find?_cons]
    · rw [replace_one_cons_ne k k1 d d1 rest h, lookupStore_cons, if_neg h]
      exact ih

/-- Upserting one key does not change lookups at other keys. -/
theorem lookup_replace_one_other (k k1 : String) (d : PODocument) (s : Store)
    (h : k1 ≠ k) : lookupStore (replace_one k d s).1 k1 = lookupStore s k1 := by
  induction s with
  | nil => simp [replace_one, lookupStore, List.find?_cons, Ne.symm h]
  | cons p rest ih =>
    obtain ⟨k2, d2⟩ := p
    by_cases h2 : k2 = k
    · subst h2
      simp [replace_one, lookupStore, List.find?_cons, Ne.symm h]
    · rw [replace_one_cons_ne k k2 d d2 rest h2, lookupStore_cons, lookupStore_cons]
      by_cases h3 : k2 = k1
      · rw [if_pos h3, if_pos h3]
      · rw [if_neg h3, if_neg h3]
        exact ih

/-- Writing back the document a key already holds is a no-op. -/
theorem replace_one_self (k : String) (d : PODocument) (s : Store)
    (h : lookupStore s k = some d) : (replace_one k d s).1 = s := by
  induction s with
  | nil => simp [lookupStore] at h
  | cons p rest ih =>
    obtain ⟨k1, d1⟩ := p
    by_cases h1 : k1 = k
    · subst h1
      rw [lookupStore_cons, if_pos rfl] at h
      have : d1 = d := Option.some.inj h
      subst this
      simp [replace_one]
    · rw [lookupStore_cons, if_neg h1] at h
      rw [replace_one_cons_ne k k1 d d1 rest h1]
      simp [ih h]

/-- First-component unfolding of an upsert past a non-matching head. -/
theorem replace_one_fst_cons_ne (k k1 : String) (d d1 : PODocument) (rest : Store)
    (h : k1 ≠ k) :
    (replace_one k d ((k1, d1) :: rest)).1 = (k1, d1) :: (replace_one k d rest).1 := by
  rw [replace_one_cons_ne k k1 d d1 rest h]

/-- First-component unfolding of an upsert on a matching head. -/
theorem replace_one_fst_cons_eq (k : String) (d d1 : PODocument) (rest : Store) :
    (replace_one k d ((k, d1) :: rest)).1 = (k, d) :: rest := by
  simp [replace_one]

/-- A second upsert on the same key overwrites the first. -/
theorem replace_one_collapse (k : String) (d d1 : PODocument) (s : Store) :
    (replace_one k d1 (replace_one k d s).1).1 = (replace_one k d1 s).1 := by
  induction s with
  | nil => simp [replace_one]
  | cons p rest ih =>
    obtain ⟨k2, d2⟩ := p
    by_cases h : k2 = k
    · subst h
      rw [replace_one_fst_cons_eq k2 d d2 rest, replace_one_fst_cons_eq k2 d1 d2 rest,
        replace_one_fst_cons_eq k2 d1 d rest]
    · rw [replace_one_fst_cons_ne k k2 d d2 rest h,
        replace_one_fst_cons_ne k k2 d1 d2 ((replace_one k d rest).1) h,
        replace_one_fst_cons_ne k k2 d1 d2 rest h, ih]

/-- Upserts on distinct keys commute when the first key already exists. -/
theorem replace_one_comm (k k1 : String) (d d1 : PODocument) (s : Store)
    (hne : k ≠ k1) (hk : k ∈ storeKeys s) :
    (replace_one k1 d1 (replace_one k d s).1).1 =
      (replace_one k d (replace_one k1 d1 s).1).1 := by
  induction s with
  | nil => simp [storeKeys] at hk
  | cons p rest ih =>
    obtain ⟨k2, d2⟩ := p
    by_cases h2 : k2 = k
    · subst h2
      rw [replace_one_fst_cons_eq k2 d d2 rest,
        replace_one_fst_cons_ne k1 k2 d1 d rest hne,
        replace_one_fst_cons_ne k1 k2 d1 d2 rest hne,
        replace_one_fst_cons_eq k2 d d2 ((replace_one k1 d1 rest).1)]
    · rw [replace_one_fst_cons_ne k k2 d d2 rest h2]
      by_cases h1 : k2 = k1
      · subst h1
        rw [replace_one_fst_cons_eq k2 d1 d2 ((replace_one k d rest).1),
          replace_one_fst_cons_eq k2 d1 d2 rest,
          replace_one_fst_cons_ne k k2 d d1 rest h2]
      · have hk2 : k ∈ storeKeys rest := by
          simp only [storeKeys, List.map_cons, List.mem_cons] at hk
          rcases hk with hk | hk
          · exact absurd hk.symm h2
          · exact hk
        rw [replace_one_fst_cons_ne k1 k2 d1 d2 ((replace_one k d rest).1) h1,
          replace_one_fst_cons_ne k1 k2 d1 d2 rest h1,
          replace_one_fst_cons_ne k k2 d d2 ((replace_one k1 d1 rest).1) h2,
          ih hk2]

/-- Keys only ever grow along a write sequence. -/
theorem applyWrites_keys_mono (W : List (String × PODocument)) (s : Store) (k : String)
    (h : k ∈ storeKeys s) : k ∈ storeKeys (applyWrites W s) := by
  induction W generalizing s with
  | nil => exact h
  | cons w W ih =>
    obtain ⟨k1, d1⟩ := w
    apply ih
    rw [replace_one_keys]
    by_cases hmem : k1 ∈ storeKeys s
    · rw [if_pos hmem]; exact h
    · rw [if_neg hmem]; exact List.mem_append_left _ h

/-- A write sequence that never touches a key leaves its lookup unchanged. -/
theorem lookup_applyWrites_not_mem (W : List (String × PODocument)) (s : Store)
    (k : String) (h : k ∉ W.map (·.1)) :
    lookupStore (applyWrites W s) k = lookupStore s k := by
  induction W generalizing s with
  | nil => rfl
  | cons w W ih =>
    obtain ⟨k1, d1⟩ := w
    have hne : k ≠ k1 := by
      intro hh
      exact h (by simp [hh])
    have htail : k ∉ W.map (·.1) := by
      intro hh
      exact h (by simp [hh])
    show lookupStore (applyWrites W (replace_one k1 d1 s).1) k = lookupStore s k
    rw [ih _ htail, lookup_replace_one_other k1 k d1 s hne]

/-- A write to an existing key that the remaining sequence overwrites anyway
is absorbed. -/
theorem applyWrites_absorb (W : List (String × PODocument)) (k : String)
    (d : PODocument) (s : Store) (hk : k ∈ storeKeys s) (hW : k ∈ W.map (·.1)) :
    applyWrites W (replace_one k d s).1 = applyWrites W s := by
  induction W generalizing s d with
  | nil => simp at hW
  | cons w W ih =>
    obtain ⟨k1, d1⟩ := w
    by_cases h : k1 = k
    · subst h
      show applyWrites W (replace_one k1 d1 (replace_one k1 d s).1).1 =
        applyWrites W (replace_one k1 d1 s).1
      rw [replace_one_collapse]
    · have hW2 : k ∈ W.map (·.1) := by
        rw [List.map_cons] at hW
        rcases List.mem_cons.mp hW with hh | hh
        · exact absurd hh.symm h
        · exact hh
      show applyWrites W (replace_one k1 d1 (replace_one k d s).1).1 =
        applyWrites W (replace_one k1 d1 s).1
      rw [replace_one_comm k k1 d d1 s (fun hh => h hh.symm) hk]
      exact ih _ _ (by
        rw [replace_one_keys]
        by_cases hmem : k1 ∈ storeKeys s
        · rw [if_pos hmem]; exact hk
        · rw [if_neg hmem]; exact List.mem_append_left _ hk) hW2

/-- Replaying the same write sequence is a no-op: the final store is a fixed
point. -/
theorem applyWrites_idem (W : List (String × PODocument)) (s : Store) :
    applyWrites W (applyWrites W s) = applyWrites W s := by
  induction W generalizing s with
  | nil => rfl
  | cons w W ih =>
    obtain ⟨k, d⟩ := w
    show applyWrites W (replace_one k d (applyWrites W (replace_one k d s).1)).1 =
      applyWrites W (replace_one k d s).1
    by_cases hW : k ∈ W.map (·.1)
    · rw [applyWrites_absorb W k d _
        (applyWrites_keys_mono W _ k (mem_keys_replace_one_self k d s)) hW]
      exact ih _
    · have hl : lookupStore (applyWrites W (replace_one k d s).1) k = some d := by
        rw [lookup_applyWrites_not_mem W _ k hW, lookup_replace_one_self]
      rw [replace_one_self k d _ hl]
      exact ih _

/-- Key membership after one upsert. -/
theorem mem_keys_replace_one_iff (k k1 : String) (d : PODocument) (s : Store) :
    k ∈ storeKeys (replace_one k1 d s).1 ↔ k = k1 ∨ k ∈ storeKeys s := by
  rw [replace_one_keys]
  by_cases hm : k1 ∈ storeKeys s
  · rw [if_pos hm]
    constructor
    · exact Or.inr
    · rintro (rfl | h)
      · exact hm
      · exact h
  · rw [if_neg hm]
    simp [List.mem_append, or_comm]

/-- Key membership after a write sequence. -/
theorem mem_keys_applyWrites (W : List (String × PODocument)) (s : Store) (k : String) :
    k ∈ storeKeys (applyWrites W s) ↔ k ∈ W.map (·.1) ∨ k ∈ storeKeys s := by
  induction W generalizing s with
  | nil => simp [applyWrites]
  | cons w W ih =>
    obtain ⟨k1, d1⟩ := w
    show k ∈ storeKeys (applyWrites W (replace_one k1 d1 s).1) ↔ _
    rw [ih, mem_keys_replace_one_iff, List.map_cons, List.mem_cons]
    tauto

/-- A write sequence touching only existing keys keeps the record count. -/
theorem applyWrites_length_stable (W : List (String × PODocument)) (s : Store)
    (h : ∀ k ∈ W.map (·.1), k ∈ storeKeys s) :
    (applyWrites W s).length = s.length := by
  induction W generalizing s with
  | nil => rfl
  | cons w W ih =>
    obtain ⟨k1, d1⟩ := w
    have hk1 : k1 ∈ storeKeys s := h k1 (by simp)
    have hlen : (replace_one k1 d1 s).1.length = s.length := by
      have hkeys := congrArg List.length (replace_one_keys k1 d1 s)
      rw [if_pos hk1] at hkeys
      simpa [storeKeys] using hkeys
    show (applyWrites W (replace_one k1 d1 s).1).length = s.length
    rw [ih _ ?_, hlen]
    intro k hk
    rw [mem_keys_replace_one_iff]
    exact Or.inr (h k (by simp [hk]))

/-- Write sequences preserve distinctness of keys. -/
theorem applyWrites_nodup_keys (W : List (String × PODocument)) (s : Store)
    (h : (storeKeys s).Nodup) : (storeKeys (applyWrites W s)).Nodup := by
  induction W generalizing s with
  | nil => exact h
  | cons w W ih =>
    obtain ⟨k1, d1⟩ := w
    apply ih
    rw [replace_one_keys]
    by_cases hm : k1 ∈ storeKeys s
    · rw [if_pos hm]; exact h
    · rw [if_neg hm]
      simp [List.nodup_append, h, hm]

/-- The `_id` assembled for a record does not depend on the ObjectId draw when
the record carries an `order_id`. -/
theorem prepare_oid_irrelevant (od : OrderData) (meta : Option MetaIn)
    (oid oid2 : String) (now : Nat) (h : od.order_id.isSome) :
    prepare_order_document od meta oid now = prepare_order_document od meta oid2 now := by
  obtain ⟨v, hv⟩ := Option.isSome_iff_exists.mp h
  simp [prepare_order_document, hv]

/-- The keys a batch writes are the `order_id`-or-ObjectId of its items,
independently of the clock. -/
theorem writesOf_keys (now : Nat) (meta : Option MetaIn) (items : List BatchItem) :
    (writesOf now meta items).map (·.1) =
      items.map (fun it => it.order.order_id.getD it.oid) := by
  rw [writesOf, List.map_map]
  rfl

/-- A fault-free batch commits exactly its write sequence. -/
theorem saveLoop_clean (now : Nat) (meta : Option MetaIn) (items : List BatchItem)
    (store : Store) (hf : ∀ it ∈ items, it.fault = none) :
    (saveLoop now meta items store).1 = applyWrites (writesOf now meta items) store := by
  induction items generalizing store with
  | nil => rfl
  | cons it items ih =>
    have hit : it.fault = none := hf it (List.mem_cons_self it items)
    obtain ⟨od, oid, fault⟩ := it
    cases fault with
    | some e => cases hit
    | none => exact ih _ (fun x hx => hf x (List.mem_cons_of_mem _ hx))

/-- Batches with the same orders and faults produce the same write sequence
when every record carries an `order_id` (so the fresh ObjectId draws are
irrelevant). -/
theorem writesOf_eq (items items2 : List BatchItem) (meta : Option MetaIn) (now : Nat)
    (hid : ∀ it ∈ items, it.order.order_id.isSome)
    (hsame : items2.map (fun it => (it.order, it.fault)) =
      items.map (fun it => (it.order, it.fault))) :
    writesOf now meta items2 = writesOf now meta items := by
  induction items generalizing items2 with
  | nil =>
    cases items2 with
    | nil => rfl
    | cons it2 rest2 => cases hsame
  | cons it items ih =>
    cases items2 with
    | nil => cases hsame
    | cons it2 rest2 =>
      simp only [List.map_cons, List.cons.injEq] at hsame
      obtain ⟨hhead, htail⟩ := hsame
      have hod : it2.order = it.order := (Prod.mk.injEq _ _ _ _ ▸ hhead).1
      have hidh : it.order.order_id.isSome := hid it (List.mem_cons_self it items)
      simp only [writesOf, List.map_cons]
      have hrest := ih rest2 (fun x hx => hid x (List.mem_cons_of_mem _ hx)) htail
      simp only [writesOf] at hrest
      rw [hod, prepare_oid_irrelevant it.order meta it2.oid it.oid now hidh, hrest]

/-- Faults pass through `hsame`-related batches. -/
theorem faults_eq (items items2 : List BatchItem)
    (hf : ∀ it ∈ items, it.fault = none)
    (hsame : items2.map (fun it => (it.order, it.fault)) =
      items.map (fun it => (it.order, it.fault))) :
    ∀ it ∈ items2, it.fault = none := by
  intro it2 hit2
  have hmem : it2.fault ∈ items2.map (fun it => it.fault) := List.mem_map_of_mem _ hit2
  have hmaps : items2.map (fun it => it.fault) = items.map (fun it => it.fault) := by
    have := congrArg (List.map (fun p : OrderData × Option String => p.2)) hsame
    simpa [List.map_map, Function.comp] using this
  rw [hmaps] at hmem
  obtain ⟨it, hit, heq⟩ := List.mem_map.mp hmem
  rw [← heq]
  exact hf it hit

/-- Full characterization of the save loop: faulted items only contribute to
the error list, every clean item commits, and the outcomes line up with the
clean items in order, each tagged inserted or updated. -/
theorem saveLoop_spec (now : Nat) (meta : Option MetaIn) (items : List BatchItem)
    (store : Store) :
    (saveLoop now meta items store).1 =
      commitAll now meta (items.filter (fun it => it.fault.isNone)) store ∧
    (saveLoop now meta items store).2.2 =
      (items.filter (fun it => it.fault.isSome)).map
        (fun it => { order_id := it.order.order_id.getD "Unknown"
                     error := it.fault.getD "" : SaveError }) ∧
    (saveLoop now meta items store).2.1.map (fun o => o.document_id) =
      (items.filter (fun it => it.fault.isNone)).map
        (fun it => (prepare_order_document it.order meta it.oid now).id) ∧
    (saveLoop now meta items store).2.1.all
      (fun o => o.action == "inserted" || o.action == "updated") = true := by
  induction items generalizing store with
  | nil => exact ⟨rfl, rfl, rfl, rfl⟩
  | cons it items ih =>
    obtain ⟨od, oid, fault⟩ := it
    cases fault with
    | some e =>
      obtain ⟨ih1, ih2, ih3, ih4⟩ := ih store
      refine ⟨?_, ?_, ?_, ?_⟩
      · simpa [saveLoop, List.filter_cons] using ih1
      · simpa [saveLoop, List.filter_cons] using ih2
      · simpa [saveLoop, List.filter_cons] using ih3
      · simpa [saveLoop] using ih4
    | none =>
      obtain ⟨ih1, ih2, ih3, ih4⟩ := ih (replace_one
        (prepare_order_document od meta oid now).id
        (prepare_order_document od meta oid now) store).1
      refine ⟨?_, ?_, ?_, ?_⟩
      · simpa [saveLoop, List.filter_cons, commitAll] using ih1
      · simpa [saveLoop, List.filter_cons] using ih2
      · simpa [saveLoop, List.filter_cons] using ih3
      · have hact : ((if (replace_one (prepare_order_document od meta oid now).id
            (prepare_order_document od meta oid now) store).2
            then "inserted" else "updated") == "inserted" ||
            (if (replace_one (prepare_order_document od meta oid now).id
            (prepare_order_document od meta oid now) store).2
            then "inserted" else "updated") == "updated") = true := by
          cases (replace_one (prepare_order_document od meta oid now).id
            (prepare_order_document od meta oid now) store).2 <;> rfl
        simpa [saveLoop, hact] using ih4

/-! ## Claim C7 -/

/-- C7 is violated as stated at two points: a record lacking an `order_id`
draws a fresh ObjectId on every run, so replaying the identical batch
duplicates it (count 2 instead of 1); and even for keyed records a replay at
a later clock rewrites `created_at`/`updated_at`, so the final stored state
differs between one and two runs. -/
theorem upsert_idempotent_counterexample :
    ((save_orders_to_mongodb 0 none [⟨exOrderNoId, "OID2", none⟩]
        (save_orders_to_mongodb 0 none [⟨exOrderNoId, "OID1", none⟩] []).1).1).length = 2 ∧
    ((save_orders_to_mongodb 0 none [⟨exOrderNoId, "OID1", none⟩] []).1).length = 1 ∧
    (save_orders_to_mongodb 1 none [⟨exOrderWithId, "OID2", none⟩]
        (save_orders_to_mongodb 0 none [⟨exOrderWithId, "OID1", none⟩] []).1).1 ≠
      (save_orders_to_mongodb 0 none [⟨exOrderWithId, "OID1", none⟩] []).1 := by
  decide

/-- C7 amended: writing an order whose `order_id` already keys a stored
document replaces the prior document in place (same key list, last writer
wins); and for fault-free batches in which every record carries an
`order_id`, re-running the identical batch (fresh ObjectId draws allowed)
leaves the stored state exactly fixed when the second run carries the same
clock, leaves the record count fixed for any second-run clock, preserves
distinctness of keys, and from an empty store yields exactly one stored
record per order id. Records lacking an `order_id` draw a fresh ObjectId per
run and duplicate instead; replays at a later clock rewrite the
`created_at`/`updated_at` stamps. -/
theorem upsert_idempotent (items items2 : List BatchItem) (meta : Option MetaIn)
    (now now2 : Nat) (store : Store)
    (hid : ∀ it ∈ items, it.order.order_id.isSome)
    (hf : ∀ it ∈ items, it.fault = none)
    (hsame : items2.map (fun it => (it.order, it.fault)) =
      items.map (fun it => (it.order, it.fault))) :
    (∀ k d, k ∈ storeKeys store →
      storeKeys (replace_one k d store).1 = storeKeys store ∧
      lookupStore (replace_one k d store).1 k = some d) ∧
    (save_orders_to_mongodb now meta items2
        (save_orders_to_mongodb now meta items store).1).1 =
      (save_orders_to_mongodb now meta items store).1 ∧
    ((save_orders_to_mongodb now2 meta items2
        (save_orders_to_mongodb now meta items store).1).1).length =
      ((save_orders_to_mongodb now meta items store).1).length ∧
    ((storeKeys store).Nodup →
      (storeKeys (save_orders_to_mongodb now meta items store).1).Nodup) ∧
    (∀ it ∈ items,
      (storeKeys (save_orders_to_mongodb now meta items []).1).count
        (it.order.order_id.getD it.oid) = 1) := by
  have hf2 := faults_eq items items2 hf hsame
  have hW2 := writesOf_eq items items2 meta now hid hsame
  have hW2b := writesOf_eq items items2 meta now2 hid hsame
  have hrun1 : (save_orders_to_mongodb now meta items store).1 =
      applyWrites (writesOf now meta items) store :=
    saveLoop_clean now meta items store hf
  have hrun2 : ∀ s, (save_orders_to_mongodb now meta items2 s).1 =
      applyWrites (writesOf now meta items) s := by
    intro s
    rw [show (save_orders_to_mongodb now meta items2 s).1 =
        (saveLoop now meta items2 s).1 from rfl,
      saveLoop_clean now meta items2 s hf2, hW2]
  have hrun2b : ∀ s, (save_orders_to_mongodb now2 meta items2 s).1 =
      applyWrites (writesOf now2 meta items) s := by
    intro s
    rw [show (save_orders_to_mongodb now2 meta items2 s).1 =
        (saveLoop now2 meta items2 s).1 from rfl,
      saveLoop_clean now2 meta items2 s hf2, hW2b]
  refine ⟨?_, ?_, ?_, ?_, ?_⟩
  · intro k d hk
    constructor
    · rw [replace_one_keys, if_pos hk]
    · exact lookup_replace_one_self k d store
  · rw [hrun2, hrun1, applyWrites_idem]
  · rw [hrun2b, hrun1]
    apply applyWrites_length_stable
    intro k hk
    rw [mem_keys_applyWrites]
    left
    rw [writesOf_keys] at hk ⊢
    exact hk
  · intro hnodup
    rw [hrun1]
    exact applyWrites_nodup_keys _ _ hnodup
  · intro it hit
    have hempty : (save_orders_to_mongodb now meta items []).1 =
        applyWrites (writesOf now meta items) [] :=
      saveLoop_clean now meta items [] hf
    rw [hempty]
    apply List.count_eq_one_of_mem
    · exact applyWrites_nodup_keys _ _ (by simp [storeKeys])
    · rw [mem_keys_applyWrites]
      left
      rw [writesOf_keys]
      exact List.mem_map_of_mem _ hit

/-- Witness for the amended C7: one keyed record, replayed with a fresh
ObjectId draw, leaves the store fixed. -/
theorem upsert_idempotent_witness :
    (save_orders_to_mongodb 0 none [⟨exOrderWithId, "OID2", none⟩]
        (save_orders_to_mongodb 0 none [⟨exOrderWithId, "OID1", none⟩] []).1).1 =
      (save_orders_to_mongodb 0 none [⟨exOrderWithId, "OID1", none⟩] []).1 :=
  (upsert_idempotent [⟨exOrderWithId, "OID1", none⟩] [⟨exOrderWithId, "OID2", none⟩]
    none 0 0 [] (by decide) (by decide) (by decide)).2.1

/-! ## Claim C8 -/

/-- C8: per-item failures during a batch upsert are caught and collected;
they do not abort siblings — the final store is the commit of exactly the
clean items, in order — and the summary reports the total saved (equal to
the number of outcomes), one inserted-or-updated outcome per clean item, one
error entry per faulted item carrying its order id or Unknown, and status
success exactly when no error occurred. -/
theorem batch_fault_isolation (now : Nat) (meta : Option MetaIn)
    (items : List BatchItem) (store : Store) :
    (save_orders_to_mongodb now meta items store).1 =
      commitAll now meta (items.filter (fun it => it.fault.isNone)) store ∧
    (save_orders_to_mongodb now meta items store).2.errors =
      (items.filter (fun it => it.fault.isSome)).map
        (fun it => { order_id := it.order.order_id.getD "Unknown"
                     error := it.fault.getD "" : SaveError }) ∧
    (save_orders_to_mongodb now meta items store).2.saved_orders.length =
      (items.filter (fun it => it.fault.isNone)).length ∧
    (save_orders_to_mongodb now meta items store).2.total_saved =
      (save_orders_to_mongodb now meta items store).2.saved_orders.length ∧
    (save_orders_to_mongodb now meta items store).2.status =
      (if (items.filter (fun it => it.fault.isSome)).isEmpty then "success"
       else "partial_success") ∧
    (save_orders_to_mongodb now meta items store).2.saved_orders.all
      (fun o => o.action == "inserted" || o.action == "updated") = true ∧
    (save_orders_to_mongodb now meta items store).2.saved_orders.map
      (fun o => o.document_id) =
      (items.filter (fun it => it.fault.isNone)).map
        (fun it => (prepare_order_document it.order meta it.oid now).id) := by
  obtain ⟨h1, h2, h3, h4⟩ := saveLoop_spec now meta items store
  refine ⟨h1, h2, ?_, rfl, ?_, h4, h3⟩
  · have := congrArg List.length h3
    simpa using this
  · show (if (saveLoop now meta items store).2.2.isEmpty then "success"
      else "partial_success") = _
    rw [h2]
    cases hfl : items.filter (fun it => it.fault.isSome) with
    | nil => rfl
    | cons a l => rfl

/-! ## Document generator validation lemmas -/

/-- If validation returns, every item passed every check. -/
theorem validate_ok_no_bad (items : List GenItem) (b : Bool)
    (h : validate_items_format items = .ok b) :
    ∀ item ∈ items, findMissing requiredFields item = none ∧
      numPos (dictGet item "quantity") = true ∧
      numPos (dictGet item "unit_price") = true := by
  induction items with
  | nil => intro item hmem; cases hmem
  | cons it items ih =>
    intro item hmem
    simp only [validate_items_format] at h
    cases hfm : findMissing requiredFields it with
    | some f => rw [hfm] at h; cases h
    | none =>
      simp only [hfm] at h
      by_cases hq : numPos (dictGet it "quantity")
      · by_cases hp : numPos (dictGet it "unit_price")
        · simp only [hq, hp, Bool.not_true, Bool.false_eq_true, if_false] at h
          rcases List.mem_cons.mp hmem with rfl | hmem2
          · exact ⟨hfm, hq, hp⟩
          · exact ih h item hmem2
        · simp only [hq, Bool.not_true, Bool.false_eq_true, if_false,
            Bool.not_eq_true] at h
          rw [if_pos (by simp [Bool.eq_false_iff.mpr hp])] at h
          cases h
      · rw [if_pos (by simp [Bool.eq_false_iff.mpr hq])] at h
        cases h

/-- Every validation error message names the offending field or item. -/
theorem validate_error_form (items : List GenItem) (msg : String)
    (h : validate_items_format items = .error msg) :
    ∃ item ∈ items,
      (∃ f, f ∈ requiredFields ∧ (dictGet item f).isNone ∧
        msg = "Missing required field " ++ f ++ " in item: " ++ itemStr item) ∨
      msg = "Invalid quantity for item " ++ codeStr item ∨
      msg = "Invalid unit_price for item " ++ codeStr item := by
  induction items with
  | nil => cases h
  | cons it items ih =>
    simp only [validate_items_format] at h
    cases hfm : findMissing requiredFields it with
    | some f =>
      rw [hfm] at h
      injection h with hmsg
      refine ⟨it, List.mem_cons_self it items, Or.inl ⟨f, ?_, ?_, hmsg.symm⟩⟩
      · exact List.mem_of_find?_eq_some hfm
      · simpa using List.find?_some hfm
    | none =>
      simp only [hfm] at h
      by_cases hq : numPos (dictGet it "quantity")
      · by_cases hp : numPos (dictGet it "unit_price")
        · simp only [hq, hp, Bool.not_true, Bool.false_eq_true, if_false] at h
          obtain ⟨item, hmem, hform⟩ := ih h
          exact ⟨item, List.mem_cons_of_mem it hmem, hform⟩
        · simp only [hq, Bool.not_true, Bool.false_eq_true, if_false] at h
          rw [if_pos (by simp [Bool.eq_false_iff.mpr hp])] at h
          injection h with hmsg
          exact ⟨it, List.mem_cons_self it items, Or.inr (Or.inr hmsg.symm)⟩
      · rw [if_pos (by simp [Bool.eq_false_iff.mpr hq])] at h
        injection h with hmsg
        exact ⟨it, List.mem_cons_self it items, Or.inr (Or.inl hmsg.symm)⟩

/-! ## Claim C9 -/

/-- C9: when some item is missing one of the required fields or carries a
non-positive or non-numeric quantity or unit price, the generator run (with a
supplier named) returns the error result — its message naming the offending
field or item — and performs no file write. -/
theorem docgen_validation_spec (action supplier_name : String) (items : List GenItem)
    (po_number : String) (now rand : Nat)
    (hsup : supplier_name ≠ "")
    (hbad : ∃ item ∈ items,
      findMissing requiredFields item ≠ none ∨
      numPos (dictGet item "quantity") = false ∨
      numPos (dictGet item "unit_price") = false) :
    ∃ msg, docgen_run action supplier_name items po_number now rand =
        (.genError msg supplier_name action, []) ∧
      (∃ item ∈ items,
        (∃ f, f ∈ requiredFields ∧ (dictGet item f).isNone ∧
          msg = "Missing required field " ++ f ++ " in item: " ++ itemStr item) ∨
        msg = "Invalid quantity for item " ++ codeStr item ∨
        msg = "Invalid unit_price for item " ++ codeStr item) := by
  obtain ⟨item0, hmem0, hoff⟩ := hbad
  have hne : items ≠ [] := by rintro rfl; cases hmem0
  cases hv : validate_items_format items with
  | ok b =>
    exfalso
    obtain ⟨h1, h2, h3⟩ := validate_ok_no_bad items b hv item0 hmem0
    rcases hoff with hoff | hoff | hoff
    · exact hoff h1
    · rw [h2] at hoff; cases hoff
    · rw [h3] at hoff; cases hoff
  | error msg =>
    refine ⟨msg, ?_, validate_error_form items msg hv⟩
    simp [docgen_run, hsup, hne, hv, List.isEmpty_iff]

/-- Witness for C9 at a concrete malformed item. -/
theorem docgen_validation_spec_witness :
    ∃ msg, docgen_run "create_pdf_po" "Acme Supplies" [exBadQtyItem] "" 0 1234 =
        (.genError msg "Acme Supplies" "create_pdf_po", []) ∧
      (∃ item ∈ [exBadQtyItem],
        (∃ f, f ∈ requiredFields ∧ (dictGet item f).isNone ∧
          msg = "Missing required field " ++ f ++ " in item: " ++ itemStr item) ∨
        msg = "Invalid quantity for item " ++ codeStr item ∨
        msg = "Invalid unit_price for item " ++ codeStr item) :=
  docgen_validation_spec "create_pdf_po" "Acme Supplies" [exBadQtyItem] "" 0 1234
    (by decide) ⟨exBadQtyItem, List.mem_cons_self _ _, Or.inr (Or.inl (by decide))⟩

/-! ## Claim C10 -/

/-- C10: the positional flattening of OCR output never reads past either
list: it pairs boxes with texts exactly up to the shorter list (it equals the
centroid map over the zip), so the output length is the minimum of the two
input lengths. -/
theorem process_result_safe (boxes : List (ℚ × ℚ × ℚ × ℚ)) (texts : List String) :
    (process_result boxes texts).length = min boxes.length texts.length ∧
    process_result boxes texts = (boxes.zip texts).map centroidOf := by
  induction boxes generalizing texts with
  | nil => cases texts <;> simp [process_result]
  | cons b bs ih =>
    obtain ⟨x1, y1, x2, y2⟩ := b
    cases texts with
    | nil => simp [process_result]
    | cons t ts =>
      obtain ⟨ih1, ih2⟩ := ih ts
      constructor
      · simp only [process_result, List.length_cons, ih1, Nat.succ_min_succ]
      · simp only [process_result, List.zip_cons_cons, List.map_cons, ih2, centroidOf]

end PoAgent
